import Mathlib

/-!
Detective Quest: the mansion tree and its interactive walker.

A shallow embedding of `algoritmos_avancados.c`.

* C `char` values are natural numbers (their byte value); a C string is the
  list of its bytes before the terminating NUL.
* A value of type `Sala *` is a `Sala`: either `NULL` or a room with its name
  and its two child pointers.  The tree is owned top-down and has no sharing,
  so a pointer is identified by the path of left/right moves from the root.
* `stdin` is the finite list of bytes still to be read; after the last one
  every read reports end of file.
* `stdout` is the list of `printf` calls made so far, one `Msg` per call;
  `Msg.texto` gives the bytes each call writes.
-/

namespace DetectiveQuest

/-! ## Data model -/

/-- Bytes of a string literal of the source file (UTF-8, without the NUL). -/
def cstr (s : String) : List Nat :=
  (s.data.flatMap String.utf8EncodeChar).map UInt8.toNat

/-- A `Sala *`: `NULL`, or a pointer to a room holding `nome`, `esquerda`
and `direita`. -/
inductive Sala where
  | NULL : Sala
  | sala (nome : List Nat) (esquerda : Sala) (direita : Sala) : Sala
  deriving DecidableEq

/-- The two child fields of a room. -/
inductive Lado where
  | esquerda : Lado
  | direita : Lado
  deriving DecidableEq

/-- The pointer `raiz->l1->l2->...` for the fields `l1, l2, ...` of the path;
`NULL` as soon as a `NULL` pointer is met. -/
def descer : Sala → List Lado → Sala
  | .NULL, _ => .NULL
  | s, [] => s
  | .sala _ e _, .esquerda :: ps => descer e ps
  | .sala _ _ d, .direita :: ps => descer d ps

/-- The leaf test of `explorarSalas`:
`atual->esquerda == NULL && atual->direita == NULL`. -/
def ehFolha : Sala → Bool
  | .sala _ .NULL .NULL => true
  | _ => false

/-- Every room of a tree, parent first, then its left and its right subtree. -/
def salas : Sala → List Sala
  | .NULL => []
  | .sala n e d => .sala n e d :: (salas e ++ salas d)

/-- Number of rooms of a tree. -/
def contarSalas : Sala → Nat
  | .NULL => 0
  | .sala _ e d => 1 + contarSalas e + contarSalas d

/-- Name stored in a room (`[]` for `NULL`). -/
def nomeDe : Sala → List Nat
  | .NULL => []
  | .sala n _ _ => n

/-! ## Tree construction -/

/-- The string left in `dst` by `strncpy(dst, src, 49); dst[49] = 0`: the
bytes of `src` before its NUL, at most 49 of them. -/
def strncpy49 (src : List Nat) : List Nat :=
  (src.takeWhile (fun c => c ≠ 0)).take 49

/-- `criarSala`: a fresh room with the copied name and both children `NULL`.
`malloc` is taken to succeed (on failure the program exits). -/
def criarSala (nome : List Nat) : Sala :=
  .sala (strncpy49 nome) .NULL .NULL

/-- The assignment `p->campo = novo`, where `p` is the pointer reached from
`raiz` along `caminho`; the result is the tree after the store, or `none`
when `p` is `NULL`. -/
def atribuir : Sala → List Lado → Lado → Sala → Option Sala
  | .NULL, _, _, _ => none
  | .sala n _ d, [], .esquerda, novo => some (.sala n novo d)
  | .sala n e _, [], .direita, novo => some (.sala n e novo)
  | .sala n e d, .esquerda :: ps, campo, novo =>
    (atribuir e ps campo novo).map (fun e2 => .sala n e2 d)
  | .sala n e d, .direita :: ps, campo, novo =>
    (atribuir d ps campo novo).map (fun d2 => .sala n e d2)

/-- `montarMansao`: the twelve stores of the source, in source order, on the
tree rooted at `hall`. -/
def montarMansao : Option Sala := do
  let hall := criarSala (cstr "Hall de Entrada")
  let hall ← atribuir hall [] .esquerda (criarSala (cstr "Sala de Jantar"))
  let hall ← atribuir hall [] .direita (criarSala (cstr "Biblioteca"))
  let hall ← atribuir hall [.esquerda] .esquerda (criarSala (cstr "Cozinha"))
  let hall ← atribuir hall [.esquerda] .direita (criarSala (cstr "Quarto Principal"))
  let hall ← atribuir hall [.direita] .esquerda (criarSala (cstr "Jardim de Inverno"))
  let hall ← atribuir hall [.direita] .direita (criarSala (cstr "Escritório"))
  let hall ← atribuir hall [.esquerda, .esquerda] .esquerda (criarSala (cstr "Dispensa"))
  let hall ← atribuir hall [.esquerda, .esquerda] .direita (criarSala (cstr "Lavandaria"))
  let hall ← atribuir hall [.esquerda, .direita] .esquerda (criarSala (cstr "Banheiro"))
  let hall ← atribuir hall [.direita, .esquerda] .direita (criarSala (cstr "Sala de Estar"))
  let hall ← atribuir hall [.direita, .esquerda, .direita] .direita (criarSala (cstr "Varanda"))
  return hall

/-! ## The walker -/

/-- One `printf` call of `explorarSalas`. -/
inductive Msg where
  | inicio : Msg
  | voceEsta (nome : List Nat) : Msg
  | fimCaminho (nome : List Nat) : Msg
  | opcoes : Msg
  | optEsquerda : Msg
  | optDireita : Msg
  | optSair : Msg
  | suaEscolha : Msg
  | caminhando (nome : List Nat) : Msg
  | bloqueadoEsquerda : Msg
  | bloqueadoDireita : Msg
  | saindo : Msg
  | invalida : Msg
  deriving DecidableEq

/-- Bytes written by each `printf` call. -/
def Msg.texto : Msg → List Nat
  | .inicio => cstr "\n--- Início da Exploração Detective Quest ---\n"
  | .voceEsta n => cstr "Você está no " ++ n ++ cstr ".\n"
  | .fimCaminho n =>
    cstr "\n🎉 Você encontrou o fim do caminho neste percurso: " ++ n ++ cstr ".\n"
  | .opcoes => cstr "\nOpções de caminho: "
  | .optEsquerda => cstr "[e] Esquerda "
  | .optDireita => cstr "[d] Direita "
  | .optSair => cstr "[s] Sair\n"
  | .suaEscolha => cstr "Sua escolha (e/d/s): "
  | .caminhando n => cstr "Caminhando para: " ++ n ++ cstr "\n"
  | .bloqueadoEsquerda => cstr "❌ Caminho da esquerda bloqueado ou inexistente aqui.\n"
  | .bloqueadoDireita => cstr "❌ Caminho da direita bloqueado ou inexistente aqui.\n"
  | .saindo => cstr "Saindo da exploração. Até a próxima!\n"
  | .invalida => cstr "Opção inválida. Tente 'e', 'd' ou 's'.\n"

/-- The C locale's `isspace`: space, `\t`, `\n`, `\v`, `\f`, `\r`. -/
def isspace (c : Nat) : Bool :=
  c = 32 || (9 ≤ c && c ≤ 13)

/-- `scanf(" %c", &escolha)`: skip white space, then read one byte.  Gives the
byte read (`none` when end of file comes first, where `scanf` returns `EOF`
instead of 1) and the input left unread. -/
def scanfChar : List Nat → Option Nat × List Nat
  | [] => (none, [])
  | c :: resto => if isspace c then scanfChar resto else (some c, resto)

/-- The loop `while (getchar() != '\n');`: the input left after the first
newline, or `none` when there is no newline left: `getchar` then returns `EOF`
on every call and the loop does not end. -/
def descartarLinha : List Nat → Option (List Nat)
  | [] => none
  | c :: resto => if c = 10 then some resto else descartarLinha resto

/-- State of the walker at the head of its loop.  `caminho` is a history
variable that is not in the source: it records the moves that succeeded, and no
branch reads it. -/
structure Estado where
  atual : Sala
  entrada : List Nat
  saida : List Msg
  caminho : List Lado
  deriving DecidableEq

/-- How the loop of `explorarSalas` stops. `travado`: the walker is inside
`while (getchar() != '\n');` at end of file and never leaves it.
`semCombustivel`: the iteration bound of `laco` ran out. -/
inductive Fim where
  | folha : Fim
  | saiu : Fim
  | cursorNulo : Fim
  | travado : Fim
  | semCombustivel : Fim
  deriving DecidableEq

/-- Outcome of one pass through the loop: go round again, or stop. -/
inductive Passo where
  | continua (s : Estado) : Passo
  | termina (f : Fim) (s : Estado) : Passo
  deriving DecidableEq

/-- State a pass ends in. -/
def Passo.estado : Passo → Estado
  | .continua s => s
  | .termina _ s => s

/-- The four or five `printf` calls that show the options of a room with
children `esq` and `dir` and ask for a choice. -/
def prompt (esq dir : Sala) : List Msg :=
  [Msg.opcoes] ++ (if esq ≠ .NULL then [Msg.optEsquerda] else [])
    ++ (if dir ≠ .NULL then [Msg.optDireita] else [])
    ++ [Msg.optSair, Msg.suaEscolha]

/-- One pass through `while (atual != NULL) { ... }`, loop test included. -/
def iteracao (s : Estado) : Passo :=
  match s.atual with
  | .NULL => .termina .cursorNulo s
  | .sala nome esq dir =>
    if esq = .NULL ∧ dir = .NULL then
      .termina .folha { s with saida := s.saida ++ [.fimCaminho nome] }
    else
      let saida := s.saida ++ prompt esq dir
      match scanfChar s.entrada with
      | (none, resto) =>
        match descartarLinha resto with
        | none => .termina .travado { s with entrada := [], saida := saida }
        | some resto2 => .continua { s with entrada := resto2, saida := saida }
      | (some escolha, resto) =>
        if escolha = 'e'.toNat ∨ escolha = 'E'.toNat then
          match esq with
          | .sala n e d =>
            .continua { atual := .sala n e d, entrada := resto,
                        saida := saida ++ [.caminhando n],
                        caminho := s.caminho ++ [.esquerda] }
          | .NULL =>
            .continua { s with entrada := resto, saida := saida ++ [.bloqueadoEsquerda] }
        else if escolha = 'd'.toNat ∨ escolha = 'D'.toNat then
          match dir with
          | .sala n e d =>
            .continua { atual := .sala n e d, entrada := resto,
                        saida := saida ++ [.caminhando n],
                        caminho := s.caminho ++ [.direita] }
          | .NULL =>
            .continua { s with entrada := resto, saida := saida ++ [.bloqueadoDireita] }
        else if escolha = 's'.toNat ∨ escolha = 'S'.toNat then
          .termina .saiu { s with entrada := resto, saida := saida ++ [.saindo] }
        else
          .continua { s with entrada := resto, saida := saida ++ [.invalida] }

/-- The loop, run for at most `n` passes. -/
def laco : Nat → Estado → Fim × Estado
  | 0, s => (.semCombustivel, s)
  | n + 1, s =>
    match iteracao s with
    | .termina f s2 => (f, s2)
    | .continua s2 => laco n s2

/-- The states at the head of the loop, in order, for at most `n` passes
after the first. -/
def trajeto : Nat → Estado → List Estado
  | 0, s => [s]
  | n + 1, s =>
    match iteracao s with
    | .termina _ _ => [s]
    | .continua s2 => s :: trajeto n s2

/-- State on entry to the loop: cursor at `raiz`, the two opening lines
printed. -/
def estadoInicial (raiz : Sala) (entrada : List Nat) : Estado :=
  { atual := raiz, entrada := entrada,
    saida := [.inicio, .voceEsta (nomeDe raiz)], caminho := [] }

/-- `explorarSalas(raiz)` on the input `entrada`: how the session ends and the
final state; `none` when `raiz` is `NULL`, which the second `printf`
dereferences.  Every pass that goes round again has read at least one byte, so
`entrada.length + 1` passes are enough (`laco_termina`). -/
def explorarSalas (raiz : Sala) (entrada : List Nat) : Option (Fim × Estado) :=
  match raiz with
  | .NULL => none
  | .sala n e d => some (laco (entrada.length + 1) (estadoInicial (.sala n e d) entrada))

/-- The cursor positions of a session, in order. -/
def visitadas (raiz : Sala) (entrada : List Nat) : List Sala :=
  (trajeto entrada.length (estadoInicial raiz entrada)).map Estado.atual

/-- Whether a `printf` call is the report of a move, "Caminhando para: ...". -/
def Msg.ehCaminhando : Msg → Bool
  | .caminhando _ => true
  | _ => false

/-- What every state at the head of the loop satisfies: the cursor is the room
reached from `raiz` along the moves that succeeded, it is a room of the tree,
and one move was reported for each of them. -/
def Inv (raiz : Sala) (s : Estado) : Prop :=
  s.atual = descer raiz s.caminho ∧ s.atual ∈ salas raiz
    ∧ (s.saida.filter Msg.ehCaminhando).length = s.caminho.length

/-! ## Teardown -/

/-- Modelled from the spec: the body of `liberarMansao` after its `NULL`
guard is not in the source file, which stops inside that function.  Following
"post-order release of every allocated room (children released before
parent)": release the left subtree, then the right subtree, then the room
itself.  The result lists the released pointers in order of release, each
pointer named by its path from the root; `aqui` is the path of `raiz`. -/
def liberarMansao : Sala → List Lado → List (List Lado)
  | .NULL, _ => []
  | .sala _ e d, aqui =>
    liberarMansao e (aqui ++ [.esquerda]) ++ liberarMansao d (aqui ++ [.direita]) ++ [aqui]

/-! ## Notions used to state the properties -/

/-- The C string held in a `char` array: its bytes before the first NUL. -/
def cadeia (mem : List Nat) : List Nat :=
  mem.takeWhile (fun c => c ≠ 0)

/-- The 50 bytes of the field `nome` after
`strncpy(novaSala->nome, nome, 49); novaSala->nome[49] = 0`: `strncpy` writes
49 bytes, the bytes of the source string and then NULs when the string is
shorter, and the store sets the last byte. -/
def campoNome (nome : List Nat) : List Nat :=
  ((cadeia nome).take 49 ++ List.replicate (49 - (cadeia nome).length) 0) ++ [0]

/-- Lower-case form of the three commands; other bytes are left as they are. -/
def minuscula (c : Nat) : Nat :=
  if c = 'E'.toNat then 'e'.toNat
  else if c = 'D'.toNat then 'd'.toNat
  else if c = 'S'.toNat then 's'.toNat
  else c

/-- The state with its pending input rewritten by `f`. -/
def Estado.mapEntrada (f : List Nat → List Nat) (s : Estado) : Estado :=
  { s with entrada := f s.entrada }

/-- The outcome of a pass with the pending input rewritten by `f`. -/
def Passo.mapEntrada (f : List Nat → List Nat) : Passo → Passo
  | .continua s => .continua (s.mapEntrada f)
  | .termina fim s => .termina fim (s.mapEntrada f)

/-- Whether a byte is one of the six commands `e E d D s S`. -/
def ehComando (c : Nat) : Bool :=
  c = 'e'.toNat || c = 'E'.toNat || c = 'd'.toNat || c = 'D'.toNat
    || c = 's'.toNat || c = 'S'.toNat

/-- Whether a `printf` call belongs to the prompt. -/
def Msg.ehPrompt : Msg → Bool
  | .opcoes => true
  | .optEsquerda => true
  | .optDireita => true
  | .optSair => true
  | .suaEscolha => true
  | _ => false

/-- Whether a `printf` call is neither part of a prompt nor the invalid-choice
message. -/
def Msg.permanece (m : Msg) : Bool :=
  !m.ehPrompt && m != .invalida

/-- A list of rooms with runs of the same room reduced to one occurrence: the
rooms visited, without the passes that stay in place. -/
def semRepeticao : List Sala → List Sala
  | [] => []
  | [a] => [a]
  | a :: b :: r => if a = b then semRepeticao (b :: r) else a :: semRepeticao (b :: r)

/-- How the output `a` of a session on the filtered input stands to the output
`b` of the session on the input itself: `a` is `b` with some `printf` calls
left out, the calls left out are prompt calls and invalid-choice messages only,
all invalid-choice messages are left out, and one prompt is left out for each
of them. -/
def ApagaInvalidas (a b : List Msg) : Prop :=
  List.Sublist a b ∧ a.filter Msg.permanece = b.filter Msg.permanece
    ∧ Msg.invalida ∉ a ∧ b.count .opcoes = a.count .opcoes + b.count .invalida

/-- The outcome of a pass from how it ends (`none`: it goes round again) and
the state it ends in. -/
def Passo.de : Option Fim → Estado → Passo
  | none, s => .continua s
  | some f, s => .termina f s

/-- Number of levels of a tree: rooms on its longest downward path. -/
def niveis : Sala → Nat
  | .NULL => 0
  | .sala _ e d => 1 + max (niveis e) (niveis d)

/-- Height of a tree: moves on its longest downward path. -/
def altura (t : Sala) : Nat :=
  niveis t - 1

/-- The bytes written to `stdout` by a list of `printf` calls. -/
def render (ms : List Msg) : List Nat :=
  ms.flatMap Msg.texto

/-! ## Auxiliary facts -/

theorem descer_NULL (p : List Lado) : descer .NULL p = .NULL := by
  cases p <;> rfl

theorem descer_append (t : Sala) (p q : List Lado) :
    descer t (p ++ q) = descer (descer t p) q := by
  induction p generalizing t with
  | nil => cases t <;> simp [descer, descer_NULL]
  | cons l ps ih =>
    cases t with
    | NULL => simp [descer_NULL]
    | sala n e d => cases l <;> simp [descer, ih]

theorem scanfChar_none (l r : List Nat) (h : scanfChar l = (none, r)) : r = [] := by
  induction l with
  | nil => simp [scanfChar] at h; exact h
  | cons c cs ih =>
    unfold scanfChar at h
    split at h
    · exact ih h
    · simp at h

theorem scanfChar_some (l r : List Nat) (c : Nat) (h : scanfChar l = (some c, r)) :
    r.length < l.length := by
  induction l with
  | nil => simp [scanfChar] at h
  | cons x xs ih =>
    unfold scanfChar at h
    split at h
    · have := ih h
      simp
      omega
    · simp at h
      simp [h.2]

/-- A pass that goes round the loop again has read at least one byte. -/
theorem iteracao_continua_length (s s2 : Estado) (h : iteracao s = .continua s2) :
    s2.entrada.length < s.entrada.length := by
  unfold iteracao at h
  split at h
  · simp at h
  · split at h
    · simp at h
    · split at h
      · rename_i resto hs
        have := scanfChar_none _ _ hs
        subst this
        simp [descartarLinha] at h
      · rename_i escolha resto hs
        have hl := scanfChar_some _ _ _ hs
        (repeat' split at h) <;> simp at h <;> subst h <;> exact hl

/-- With more passes allowed than there are input bytes, the loop stops by
itself. -/
theorem laco_termina (n : Nat) (s : Estado) (h : s.entrada.length < n) :
    (laco n s).1 ≠ .semCombustivel := by
  induction n generalizing s with
  | zero => omega
  | succ n ih =>
    unfold laco
    split
    · rename_i f s2 hi
      unfold iteracao at hi
      (repeat' split at hi) <;> simp at hi <;> simp [← hi.1]
    · rename_i s2 hi
      have := iteracao_continua_length _ _ hi
      exact ih s2 (by omega)

/-- The pass bound of `explorarSalas` is never what stops a session. -/
theorem explorarSalas_termina (raiz : Sala) (entrada : List Nat) (f : Fim) (s : Estado)
    (h : explorarSalas raiz entrada = some (f, s)) : f ≠ .semCombustivel := by
  cases raiz with
  | NULL => simp [explorarSalas] at h
  | sala n e d =>
    simp only [explorarSalas, Option.some.injEq] at h
    have := laco_termina (entrada.length + 1) (estadoInicial (.sala n e d) entrada)
      (by simp [estadoInicial])
    rw [h] at this
    exact this

theorem salas_trans (t r x : Sala) (hr : r ∈ salas t) (hx : x ∈ salas r) : x ∈ salas t := by
  induction t with
  | NULL => simp [salas] at hr
  | sala n e d ihe ihd =>
    simp only [salas, List.mem_cons, List.mem_append] at hr ⊢
    rcases hr with hr | hr | hr
    · subst hr
      simpa [salas] using hx
    · exact Or.inr (Or.inl (ihe hr))
    · exact Or.inr (Or.inr (ihd hr))

theorem salas_esquerda (t : Sala) (n n2 : List Nat) (d e2 d2 : Sala)
    (h : Sala.sala n (.sala n2 e2 d2) d ∈ salas t) : Sala.sala n2 e2 d2 ∈ salas t :=
  salas_trans t _ _ h (by simp [salas])

theorem salas_direita (t : Sala) (n n2 : List Nat) (e e2 d2 : Sala)
    (h : Sala.sala n e (.sala n2 e2 d2) ∈ salas t) : Sala.sala n2 e2 d2 ∈ salas t :=
  salas_trans t _ _ h (by simp [salas])

theorem Inv_inicial (raiz : Sala) (entrada : List Nat) (h : raiz ≠ .NULL) :
    Inv raiz (estadoInicial raiz entrada) := by
  cases raiz with
  | NULL => exact absurd rfl h
  | sala n e d => simp [Inv, estadoInicial, descer, salas, Msg.ehCaminhando]

theorem filter_prompt (e d : Sala) : (prompt e d).filter Msg.ehCaminhando = [] := by
  unfold prompt
  split <;> split <;> simp [Msg.ehCaminhando]

theorem Inv_continua (raiz : Sala) (s s2 : Estado) (hi : iteracao s = .continua s2)
    (h : Inv raiz s) : Inv raiz s2 := by
  obtain ⟨h1, h2, h3⟩ := h
  unfold iteracao at hi
  split at hi
  · simp at hi
  · rename_i nome esq dir hat
    rw [hat] at h1 h2
    split at hi
    · simp at hi
    · (repeat' split at hi) <;> simp at hi <;> subst hi <;>
        simp only [Inv, descer_append, ← h1, List.filter_append, filter_prompt,
          List.length_append, h3, hat] <;>
        simp [descer, Msg.ehCaminhando, h2]
      · exact salas_esquerda _ _ _ _ _ _ h2
      · exact salas_direita _ _ _ _ _ _ h2

theorem termina_cursor (s s2 : Estado) (f : Fim) (hi : iteracao s = .termina f s2) :
    s2.atual = s.atual ∧ s2.caminho = s.caminho := by
  unfold iteracao at hi
  (repeat' split at hi) <;> simp at hi <;> simp [← hi.2]

theorem Inv_trajeto (raiz : Sala) (n : Nat) (s0 s : Estado) (h0 : Inv raiz s0)
    (h : s ∈ trajeto n s0) : Inv raiz s := by
  induction n generalizing s0 with
  | zero =>
    simp [trajeto] at h
    exact h ▸ h0
  | succ n ih =>
    unfold trajeto at h
    split at h
    · simp at h
      exact h ▸ h0
    · rename_i s2 hi
      simp at h
      rcases h with h | h
      · exact h ▸ h0
      · exact ih s2 (Inv_continua raiz s0 s2 hi h0) h

/-! ## The fixed layout -/

/-- C7: `montarMansao` has no argument and yields one fixed tree rooted at
"Hall de Entrada", with the children the layout table gives each room and
every other child absent. -/
theorem montarMansao_layout :
    montarMansao = some
      (.sala (cstr "Hall de Entrada")
        (.sala (cstr "Sala de Jantar")
          (.sala (cstr "Cozinha")
            (.sala (cstr "Dispensa") .NULL .NULL)
            (.sala (cstr "Lavandaria") .NULL .NULL))
          (.sala (cstr "Quarto Principal")
            (.sala (cstr "Banheiro") .NULL .NULL)
            .NULL))
        (.sala (cstr "Biblioteca")
          (.sala (cstr "Jardim de Inverno")
            .NULL
            (.sala (cstr "Sala de Estar")
              .NULL
              (.sala (cstr "Varanda") .NULL .NULL)))
          (.sala (cstr "Escritório") .NULL .NULL))) := by
  decide

/-- C6, as the spec states it, fails: the tree built by `montarMansao` does
not have 13 rooms. -/
theorem montarMansao_not_13_salas : montarMansao.map contarSalas ≠ some 13 := by
  decide

/-- C6, amended: the tree built by `montarMansao` has exactly 12 rooms, one
for each of the twelve `criarSala` calls. -/
theorem montarMansao_12_salas :
    montarMansao.map contarSalas = some 12
      ∧ montarMansao.map (fun t => (salas t).length) = some 12 := by
  decide

/-- C8: in the tree built by `montarMansao` the leaves are exactly Dispensa,
Lavandaria, Banheiro, Escritório and Varanda; the seven other rooms each have
a child. -/
theorem montarMansao_folhas :
    montarMansao.map (fun t => ((salas t).filter ehFolha).map nomeDe)
        = some [cstr "Dispensa", cstr "Lavandaria", cstr "Banheiro", cstr "Varanda",
                cstr "Escritório"]
      ∧ montarMansao.map (fun t => ((salas t).filter (fun r => !ehFolha r)).map nomeDe)
        = some [cstr "Hall de Entrada", cstr "Sala de Jantar", cstr "Cozinha",
                cstr "Quarto Principal", cstr "Biblioteca", cstr "Jardim de Inverno",
                cstr "Sala de Estar"] := by
  decide

/-! ## A session -/

/-- C1: on the tree built by `montarMansao`, the input `e`, `e`, `e` takes the
cursor Hall de Entrada, Sala de Jantar, Cozinha, Dispensa; Dispensa is a leaf
and the session ends there with the leaf message naming Dispensa as its last
output.  The same holds when each `e` is followed by a newline. -/
theorem explorar_eee :
    montarMansao.map (fun t => (visitadas t (cstr "eee")).map nomeDe)
        = some [cstr "Hall de Entrada", cstr "Sala de Jantar", cstr "Cozinha",
                cstr "Dispensa"]
      ∧ montarMansao.bind (fun t => explorarSalas t (cstr "eee"))
        = some (.folha,
            { atual := .sala (cstr "Dispensa") .NULL .NULL,
              entrada := [],
              saida := [.inicio, .voceEsta (cstr "Hall de Entrada"),
                .opcoes, .optEsquerda, .optDireita, .optSair, .suaEscolha,
                .caminhando (cstr "Sala de Jantar"),
                .opcoes, .optEsquerda, .optDireita, .optSair, .suaEscolha,
                .caminhando (cstr "Cozinha"),
                .opcoes, .optEsquerda, .optDireita, .optSair, .suaEscolha,
                .caminhando (cstr "Dispensa"),
                .fimCaminho (cstr "Dispensa")],
              caminho := [.esquerda, .esquerda, .esquerda] })
      ∧ montarMansao.map (fun t => (visitadas t (cstr "e\ne\ne\n")).map nomeDe)
        = some [cstr "Hall de Entrada", cstr "Sala de Jantar", cstr "Cozinha",
                cstr "Dispensa"]
      ∧ montarMansao.bind (fun t => (explorarSalas t (cstr "e\ne\ne\n")).map
          (fun r => (r.1, r.2.atual, ehFolha r.2.atual, r.2.saida.getLast?)))
        = some (.folha, .sala (cstr "Dispensa") .NULL .NULL, true,
            some (.fimCaminho (cstr "Dispensa"))) := by
  decide

/-! ## The cursor stays in the tree -/

/-- C2: for every tree and every input, each state the walker passes through
has its cursor at the room reached from the root by following the moves that
succeeded so far (one per reported move), and that room is a room of the tree;
the pass that ends a session leaves the cursor where it is. -/
theorem cursor_na_arvore (raiz : Sala) (entrada : List Nat) (n : Nat) (s : Estado)
    (hr : raiz ≠ .NULL) (h : s ∈ trajeto n (estadoInicial raiz entrada)) :
    s.atual = descer raiz s.caminho
      ∧ s.atual ∈ salas raiz
      ∧ s.atual ≠ .NULL
      ∧ (s.saida.filter Msg.ehCaminhando).length = s.caminho.length
      ∧ ∀ f s2, iteracao s = .termina f s2 → s2.atual = s.atual ∧ s2.caminho = s.caminho := by
  obtain ⟨h1, h2, h3⟩ := Inv_trajeto raiz n _ s (Inv_inicial raiz entrada hr) h
  refine ⟨h1, h2, ?_, h3, fun f s2 hi => termina_cursor s s2 f hi⟩
  intro hn
  rw [hn] at h2
  clear h1 h3 h hn
  induction raiz with
  | NULL => simp [salas] at h2
  | sala n e d ihe ihd =>
    simp only [salas, List.mem_cons, List.mem_append] at h2
    rcases h2 with h2 | h2 | h2
    · cases h2
    · cases e with
      | NULL => simp [salas] at h2
      | sala _ _ _ => exact ihe (by simp) h2
    · cases d with
      | NULL => simp [salas] at h2
      | sala _ _ _ => exact ihd (by simp) h2

/-! ## Single passes of the loop -/

/-- C3: whenever the cursor is at a leaf, be it the root or a room just moved
to, the pass prints the leaf message naming that room and the session ends
there: nothing else is printed, no input is read, the input left is untouched. -/
theorem folha_termina (s : Estado) (n : Nat) (h : ehFolha s.atual = true) :
    iteracao s = .termina .folha { s with saida := s.saida ++ [.fimCaminho (nomeDe s.atual)] }
      ∧ laco (n + 1) s
        = (.folha, { s with saida := s.saida ++ [.fimCaminho (nomeDe s.atual)] })
      ∧ trajeto n s = [s]
      ∧ (∀ s0, iteracao s0 = .continua s → laco (n + 2) s0
        = (.folha, { s with saida := s.saida ++ [.fimCaminho (nomeDe s.atual)] }))
      ∧ (∀ entrada, explorarSalas s.atual entrada
        = some (.folha,
            { atual := s.atual, entrada := entrada,
              saida := [.inicio, .voceEsta (nomeDe s.atual), .fimCaminho (nomeDe s.atual)],
              caminho := [] })) := by
  have hi : ∀ s : Estado, ehFolha s.atual = true →
      iteracao s = .termina .folha
        { s with saida := s.saida ++ [.fimCaminho (nomeDe s.atual)] } := by
    intro s h
    unfold iteracao
    split
    · rename_i hat
      simp [hat, ehFolha] at h
    · rename_i nome esq dir hat
      cases esq <;> cases dir <;> simp [hat, ehFolha] at h
      simp [hat, nomeDe]
  have hl : ∀ m, laco (m + 1) s
      = (.folha, { s with saida := s.saida ++ [.fimCaminho (nomeDe s.atual)] }) := by
    intro m
    simp [laco, hi s h]
  refine ⟨hi s h, hl n, ?_, ?_, ?_⟩
  · cases n <;> simp [trajeto, hi s h]
  · intro s0 h0
    rw [laco, h0]
    exact hl n
  · intro entrada
    cases hs : s.atual with
    | NULL => simp [hs, ehFolha] at h
    | sala nome esq dir =>
      have h2 : ehFolha (estadoInicial (.sala nome esq dir) entrada).atual = true := by
        simpa [estadoInicial, hs] using h
      simp only [explorarSalas, laco, hi _ h2]
      simp [estadoInicial, nomeDe]

/-- C4: at a room that is not a leaf, a left command with no left child, and a
right command with no right child, leave the cursor, print the blocked-path
message after the prompt, and go round the loop, whose next pass prints the
prompt of the same room again. -/
theorem caminho_bloqueado (s : Estado) (nome : List Nat) (c : Nat) (resto : List Nat)
    (hs : scanfChar s.entrada = (some c, resto)) :
    (∀ dir, s.atual = .sala nome .NULL dir → dir ≠ .NULL →
        c = 'e'.toNat ∨ c = 'E'.toNat →
        iteracao s = .continua
            { s with entrada := resto,
                     saida := s.saida ++ prompt .NULL dir ++ [.bloqueadoEsquerda] }
          ∧ (s.saida ++ prompt .NULL dir ++ [.bloqueadoEsquerda]) ++ prompt .NULL dir
            <+: (iteracao
              { s with entrada := resto,
                       saida := s.saida ++ prompt .NULL dir ++ [.bloqueadoEsquerda] }
              ).estado.saida)
      ∧ (∀ esq, s.atual = .sala nome esq .NULL → esq ≠ .NULL →
        c = 'd'.toNat ∨ c = 'D'.toNat →
        iteracao s = .continua
            { s with entrada := resto,
                     saida := s.saida ++ prompt esq .NULL ++ [.bloqueadoDireita] }
          ∧ (s.saida ++ prompt esq .NULL ++ [.bloqueadoDireita]) ++ prompt esq .NULL
            <+: (iteracao
              { s with entrada := resto,
                       saida := s.saida ++ prompt esq .NULL ++ [.bloqueadoDireita] }
              ).estado.saida) := by
  have hp : ∀ (s : Estado) (nome : List Nat) (esq dir : Sala),
      s.atual = .sala nome esq dir → ¬(esq = .NULL ∧ dir = .NULL) →
      s.saida ++ prompt esq dir <+: (iteracao s).estado.saida := by
    intro s nome esq dir hat hnf
    unfold iteracao
    simp only [hat, hnf, if_false]
    (repeat' split) <;> simp [Passo.estado, List.append_assoc]
  constructor
  · intro dir hat hd hc
    constructor
    · rcases hc with hc | hc <;> subst hc <;> simp [iteracao, hat, hd, hs]
    · exact hp { s with entrada := resto,
                        saida := s.saida ++ prompt .NULL dir ++ [.bloqueadoEsquerda] }
        nome .NULL dir hat (by simp [hd])
  · intro esq hat he hc
    constructor
    · rcases hc with hc | hc <;> subst hc <;> simp [iteracao, hat, he, hs]
    · exact hp { s with entrada := resto,
                        saida := s.saida ++ prompt esq .NULL ++ [.bloqueadoDireita] }
        nome esq .NULL hat (by simp [he])

/-- C5: at a room that is not a leaf, the exit command ends the session in
that pass: after the prompt only the exit message is printed, no leaf message,
the cursor and the recorded moves are unchanged, and the input after the
command is left unread, whatever it is. -/
theorem sair_termina (s : Estado) (nome : List Nat) (esq dir : Sala) (c : Nat)
    (resto : List Nat) (n : Nat)
    (hat : s.atual = .sala nome esq dir) (hnf : ehFolha s.atual = false)
    (hs : scanfChar s.entrada = (some c, resto))
    (hc : c = 's'.toNat ∨ c = 'S'.toNat) :
    iteracao s = .termina .saiu
        { s with entrada := resto, saida := s.saida ++ prompt esq dir ++ [.saindo] }
      ∧ laco (n + 1) s
        = (.saiu, { s with entrada := resto, saida := s.saida ++ prompt esq dir ++ [.saindo] })
      ∧ trajeto n s = [s]
      ∧ (∀ nm, Msg.fimCaminho nm ∉ prompt esq dir ++ [.saindo]) := by
  have hnf2 : ¬(esq = .NULL ∧ dir = .NULL) := by
    rintro ⟨rfl, rfl⟩
    simp [hat, ehFolha] at hnf
  have hi : iteracao s = .termina .saiu
      { s with entrada := resto, saida := s.saida ++ prompt esq dir ++ [.saindo] } := by
    rcases hc with hc | hc <;> subst hc <;> simp [iteracao, hat, hnf2, hs]
  refine ⟨hi, by simp [laco, hi], ?_, ?_⟩
  · cases n <;> simp [trajeto, hi]
  · intro nm
    unfold prompt
    split <;> split <;> simp

/-- C9: at a room that is not a leaf, a left command with a left child moves
the cursor to exactly that child and reports the name of the child, and a
right command with a right child does the same with the right child. -/
theorem mover_para_filho (s : Estado) (nome : List Nat) (c : Nat) (resto : List Nat)
    (hs : scanfChar s.entrada = (some c, resto)) :
    (∀ n2 e2 d2 dir, s.atual = .sala nome (.sala n2 e2 d2) dir →
        c = 'e'.toNat ∨ c = 'E'.toNat →
        iteracao s = .continua
          { atual := .sala n2 e2 d2, entrada := resto,
            saida := s.saida ++ prompt (.sala n2 e2 d2) dir ++ [.caminhando n2],
            caminho := s.caminho ++ [.esquerda] })
      ∧ (∀ n2 e2 d2 esq, s.atual = .sala nome esq (.sala n2 e2 d2) →
        c = 'd'.toNat ∨ c = 'D'.toNat →
        iteracao s = .continua
          { atual := .sala n2 e2 d2, entrada := resto,
            saida := s.saida ++ prompt esq (.sala n2 e2 d2) ++ [.caminhando n2],
            caminho := s.caminho ++ [.direita] }) := by
  constructor
  · intro n2 e2 d2 dir hat hc
    rcases hc with hc | hc <;> subst hc <;> simp [iteracao, hat, hs]
  · intro n2 e2 d2 esq hat hc
    rcases hc with hc | hc <;> subst hc <;> simp [iteracao, hat, hs]

/-! ## Teardown -/

theorem liberarMansao_map (t : Sala) (a : List Lado) :
    liberarMansao t a = (liberarMansao t []).map (fun p => a ++ p) := by
  induction t generalizing a with
  | NULL => simp [liberarMansao]
  | sala n e d ihe ihd =>
    simp only [liberarMansao, List.nil_append]
    rw [ihe (a ++ [Lado.esquerda]), ihd (a ++ [Lado.direita]), ihe [Lado.esquerda],
      ihd [Lado.direita]]
    simp [List.map_append, List.map_map, Function.comp_def]

theorem liberarMansao_sala (n : List Nat) (e d : Sala) :
    liberarMansao (.sala n e d) []
      = (liberarMansao e []).map (List.cons .esquerda)
        ++ (liberarMansao d []).map (List.cons .direita) ++ [[]] := by
  simp only [liberarMansao, List.nil_append]
  rw [liberarMansao_map e [Lado.esquerda], liberarMansao_map d [Lado.direita]]
  rfl

theorem mem_liberarMansao (t : Sala) (p : List Lado) :
    p ∈ liberarMansao t [] ↔ descer t p ≠ .NULL := by
  induction t generalizing p with
  | NULL => simp [liberarMansao, descer_NULL]
  | sala n e d ihe ihd =>
    rw [liberarMansao_sala]
    cases p with
    | nil => simp [descer]
    | cons l ps => cases l <;> simp [descer, ihe, ihd]

theorem nodup_liberarMansao (t : Sala) : (liberarMansao t []).Nodup := by
  induction t with
  | NULL => simp [liberarMansao]
  | sala n e d ihe ihd =>
    rw [liberarMansao_sala]
    have h1 := ihe.map (List.cons_injective (a := Lado.esquerda))
    have h2 := ihd.map (List.cons_injective (a := Lado.direita))
    rw [List.nodup_append, List.nodup_append]
    refine ⟨⟨h1, h2, ?_⟩, by simp, ?_⟩
    · intro x hx hy
      simp only [List.mem_map] at hx hy
      obtain ⟨a, _, rfl⟩ := hx
      obtain ⟨b, _, hb⟩ := hy
      cases hb
    · intro x hx hy
      simp only [List.mem_append, List.mem_map, List.mem_singleton] at hx hy
      subst hy
      rcases hx with ⟨a, _, ha⟩ | ⟨a, _, ha⟩ <;> cases ha

theorem length_liberarMansao (t : Sala) : (liberarMansao t []).length = contarSalas t := by
  induction t with
  | NULL => simp [liberarMansao, contarSalas]
  | sala n e d ihe ihd =>
    rw [liberarMansao_sala]
    simp [contarSalas, ihe, ihd]
    omega

theorem ordem_liberarMansao (t : Sala) (p : List Lado) (hp : descer t p ≠ .NULL) :
    ∃ pre post, liberarMansao t [] = pre ++ p :: post
      ∧ ∀ q, q ≠ [] → descer t (p ++ q) ≠ .NULL → p ++ q ∈ pre := by
  induction t generalizing p with
  | NULL => simp [descer_NULL] at hp
  | sala n e d ihe ihd =>
    rw [liberarMansao_sala]
    cases p with
    | nil =>
      refine ⟨_, [], rfl, ?_⟩
      intro q hq hd
      have := (mem_liberarMansao (.sala n e d) q).2 (by simpa using hd)
      rw [liberarMansao_sala] at this
      simp only [List.mem_append, List.mem_singleton] at this
      rcases this with h | h
      · simpa using h
      · exact absurd h hq
    | cons l ps =>
      cases l with
      | esquerda =>
        obtain ⟨pre, post, he, hq⟩ := ihe ps (by simpa [descer] using hp)
        refine ⟨pre.map (List.cons .esquerda),
          post.map (List.cons .esquerda) ++ (liberarMansao d []).map (List.cons .direita)
            ++ [[]], by simp [he], ?_⟩
        intro q hne hd
        have := hq q hne (by simpa [descer] using hd)
        simpa using this
      | direita =>
        obtain ⟨pre, post, he, hq⟩ := ihd ps (by simpa [descer] using hp)
        refine ⟨(liberarMansao e []).map (List.cons .esquerda) ++ pre.map (List.cons .direita),
          post.map (List.cons .direita) ++ [[]], by simp [he], ?_⟩
        intro q hne hd
        have := hq q hne (by simpa [descer] using hd)
        simp only [List.cons_append, List.mem_append, List.mem_map]
        exact Or.inr ⟨_, this, rfl⟩

/-- C10: teardown of any tree releases each room of the tree exactly once
(the released pointers are pairwise distinct, they are the pointers to the
rooms of the tree, and there are as many as rooms), each room after every
room below it; teardown of `NULL` releases nothing. -/
theorem liberarMansao_posOrdem (t : Sala) :
    (liberarMansao t []).Nodup
      ∧ (∀ p, p ∈ liberarMansao t [] ↔ descer t p ≠ .NULL)
      ∧ (liberarMansao t []).length = contarSalas t
      ∧ (∀ p, descer t p ≠ .NULL → ∃ pre post, liberarMansao t [] = pre ++ p :: post
          ∧ ∀ q, q ≠ [] → descer t (p ++ q) ≠ .NULL → p ++ q ∈ pre)
      ∧ (∀ a, liberarMansao .NULL a = []) :=
  ⟨nodup_liberarMansao t, mem_liberarMansao t, length_liberarMansao t,
    ordem_liberarMansao t, fun _ => rfl⟩

/-! ## Room creation -/

theorem cadeia_sem_zero (l : List Nat) : (0 : Nat) ∉ cadeia l := by
  intro h
  have := List.mem_takeWhile_imp h
  simp at this

theorem cadeia_de_cadeia (a b : List Nat) (ha : (0 : Nat) ∉ a) :
    cadeia (a ++ 0 :: b) = a := by
  induction a with
  | nil => simp [cadeia]
  | cons x xs ih =>
    simp only [List.mem_cons, not_or] at ha
    have hx : x ≠ 0 := fun h => ha.1 h.symm
    have ih2 := ih ha.2
    simp only [cadeia, List.cons_append] at ih2 ⊢
    rw [List.takeWhile_cons, ih2]
    simp [hx]

/-- C17: for every name, `criarSala` returns a leaf whose stored name is the
input string when that has at most 49 bytes and its first 49 bytes otherwise;
the 50-byte field always holds a NUL at or before its last byte, and the
stored name is the string read back from the field. -/
theorem criarSala_nome (nome : List Nat) :
    ehFolha (criarSala nome) = true
      ∧ criarSala nome = .sala ((cadeia nome).take 49) .NULL .NULL
      ∧ ((cadeia nome).length ≤ 49 → nomeDe (criarSala nome) = cadeia nome)
      ∧ (49 < (cadeia nome).length → nomeDe (criarSala nome) = (cadeia nome).take 49
          ∧ (nomeDe (criarSala nome)).length = 49)
      ∧ (campoNome nome).length = 50
      ∧ (campoNome nome)[49]? = some 0
      ∧ cadeia (campoNome nome) = nomeDe (criarSala nome)
      ∧ (nomeDe (criarSala nome)).length ≤ 49 := by
  have hn : nomeDe (criarSala nome) = (cadeia nome).take 49 := rfl
  refine ⟨rfl, rfl, ?_, ?_, ?_, ?_, ?_, ?_⟩
  · intro h
    rw [hn, List.take_of_length_le h]
  · intro h
    refine ⟨hn, ?_⟩
    rw [hn, List.length_take]
    omega
  · simp only [campoNome, List.length_append, List.length_take, List.length_replicate,
      List.length_singleton]
    omega
  · have hl : ((cadeia nome).take 49
        ++ List.replicate (49 - (cadeia nome).length) 0).length = 49 := by
      simp only [List.length_append, List.length_take, List.length_replicate]
      omega
    unfold campoNome
    rw [List.getElem?_append_right (by omega), hl]
    rfl
  · rw [hn]
    unfold campoNome
    rw [List.append_assoc]
    have h0 : List.replicate (49 - (cadeia nome).length) 0 ++ [0]
        = 0 :: List.replicate (49 - (cadeia nome).length) 0 := by
      rw [← List.replicate_succ, List.replicate_succ']
    rw [h0]
    apply cadeia_de_cadeia
    intro h
    exact cadeia_sem_zero nome (List.mem_of_mem_take h)
  · rw [hn, List.length_take]
    omega

/-! ## Prompt, invalid choices and failed reads -/

theorem naoFolha_filhos (nome : List Nat) (esq dir : Sala)
    (h : ehFolha (.sala nome esq dir) = false) : ¬(esq = .NULL ∧ dir = .NULL) := by
  rintro ⟨rfl, rfl⟩
  simp [ehFolha] at h

/-- What a pass at a room with a child prints starts with the prompt of that
room, followed by at most one more message, which is no option of the prompt. -/
theorem prompt_prefixo (s : Estado) (nome : List Nat) (esq dir : Sala)
    (hat : s.atual = .sala nome esq dir) (hnf : ¬(esq = .NULL ∧ dir = .NULL)) :
    ∃ extra, (iteracao s).estado.saida = s.saida ++ prompt esq dir ++ extra
      ∧ extra.length ≤ 1 ∧ ∀ m ∈ extra, m.ehPrompt = false := by
  unfold iteracao
  simp only [hat, hnf, if_false]
  (repeat' split) <;> simp [Passo.estado, Msg.ehPrompt]

/-- C15: at a room that is not a leaf the pass prints the prompt first, and
the prompt lists "[e] Esquerda" exactly when the left child is present,
"[d] Direita" exactly when the right child is present, and "[s] Sair" always,
both as `printf` calls and in the bytes written. -/
theorem opcoes_do_prompt (s : Estado) (nome : List Nat) (esq dir : Sala)
    (hat : s.atual = .sala nome esq dir) (hnf : ehFolha s.atual = false) :
    (∃ extra, (iteracao s).estado.saida = s.saida ++ prompt esq dir ++ extra
        ∧ extra.length ≤ 1 ∧ ∀ m ∈ extra, m.ehPrompt = false)
      ∧ (Msg.optEsquerda ∈ prompt esq dir ↔ esq ≠ .NULL)
      ∧ (Msg.optDireita ∈ prompt esq dir ↔ dir ≠ .NULL)
      ∧ Msg.optSair ∈ prompt esq dir
      ∧ (cstr "[e] Esquerda" <:+: render (prompt esq dir) ↔ esq ≠ .NULL)
      ∧ (cstr "[d] Direita" <:+: render (prompt esq dir) ↔ dir ≠ .NULL)
      ∧ cstr "[s] Sair" <:+: render (prompt esq dir) := by
  rw [hat] at hnf
  refine ⟨prompt_prefixo s nome esq dir hat (naoFolha_filhos nome esq dir hnf), ?_⟩
  cases esq <;> cases dir <;> simp only [prompt, ne_eq, not_true_eq_false, if_false,
    reduceCtorEq, not_false_eq_true, if_true, iff_true, iff_false, true_and] <;> decide

/-- C13, evaluated: on the tree built by `montarMansao` with the input at end
of file, and with the input `e` followed by end of file, the failed read puts
the walker in the discard loop for good: nothing is printed after the prompt
and the session does not go on. -/
theorem leitura_falha_trava :
    montarMansao.bind (fun t => explorarSalas t [])
        = some (.travado,
            { atual := .sala (cstr "Hall de Entrada")
                (.sala (cstr "Sala de Jantar")
                  (.sala (cstr "Cozinha")
                    (.sala (cstr "Dispensa") .NULL .NULL)
                    (.sala (cstr "Lavandaria") .NULL .NULL))
                  (.sala (cstr "Quarto Principal")
                    (.sala (cstr "Banheiro") .NULL .NULL)
                    .NULL))
                (.sala (cstr "Biblioteca")
                  (.sala (cstr "Jardim de Inverno")
                    .NULL
                    (.sala (cstr "Sala de Estar")
                      .NULL
                      (.sala (cstr "Varanda") .NULL .NULL)))
                  (.sala (cstr "Escritório") .NULL .NULL)),
              entrada := [],
              saida := [.inicio, .voceEsta (cstr "Hall de Entrada"),
                .opcoes, .optEsquerda, .optDireita, .optSair, .suaEscolha],
              caminho := [] })
      ∧ montarMansao.bind (fun t => (explorarSalas t (cstr "e\n")).map
          (fun r => (r.1, nomeDe r.2.atual, r.2.saida)))
        = some (.travado, cstr "Sala de Jantar",
            [.inicio, .voceEsta (cstr "Hall de Entrada"),
              .opcoes, .optEsquerda, .optDireita, .optSair, .suaEscolha,
              .caminhando (cstr "Sala de Jantar"),
              .opcoes, .optEsquerda, .optDireita, .optSair, .suaEscolha])
      ∧ descartarLinha [] = none := by
  decide

/-- Whenever the read of the command fails at a room with a child, the input
is at its end, the discard loop finds no newline, and the pass stops there
instead of going round the loop. -/
theorem leitura_falha_geral (s : Estado) (nome : List Nat) (esq dir : Sala)
    (resto : List Nat) (hat : s.atual = .sala nome esq dir)
    (hnf : ehFolha s.atual = false) (hs : scanfChar s.entrada = (none, resto)) :
    resto = [] ∧ descartarLinha resto = none
      ∧ iteracao s = .termina .travado
        { s with entrada := [], saida := s.saida ++ prompt esq dir } := by
  rw [hat] at hnf
  have hnf2 := naoFolha_filhos nome esq dir hnf
  have hr := scanfChar_none _ _ hs
  subst hr
  refine ⟨rfl, rfl, ?_⟩
  simp [iteracao, hat, hnf2, hs, descartarLinha]

/-! ## Upper-case commands -/

theorem isspace_minuscula (c : Nat) : isspace (minuscula c) = isspace c := by
  unfold minuscula
  split
  · subst c; decide
  · split
    · subst c; decide
    · split
      · subst c; decide
      · rfl

theorem minuscula_e (c : Nat) : (minuscula c = 101 ∨ minuscula c = 69) ↔ (c = 101 ∨ c = 69) := by
  unfold minuscula
  simp only [Char.reduceToNat]
  repeat' split
  all_goals omega

theorem minuscula_d (c : Nat) : (minuscula c = 100 ∨ minuscula c = 68) ↔ (c = 100 ∨ c = 68) := by
  unfold minuscula
  simp only [Char.reduceToNat]
  repeat' split
  all_goals omega

theorem minuscula_s (c : Nat) : (minuscula c = 115 ∨ minuscula c = 83) ↔ (c = 115 ∨ c = 83) := by
  unfold minuscula
  simp only [Char.reduceToNat]
  repeat' split
  all_goals omega

theorem scanfChar_minuscula (l : List Nat) :
    scanfChar (l.map minuscula)
      = ((scanfChar l).1.map minuscula, (scanfChar l).2.map minuscula) := by
  induction l with
  | nil => simp [scanfChar]
  | cons c cs ih =>
    simp only [List.map_cons, scanfChar, isspace_minuscula]
    split
    · exact ih
    · simp

theorem descartarLinha_minuscula (l : List Nat) :
    descartarLinha (l.map minuscula) = (descartarLinha l).map (List.map minuscula) := by
  induction l with
  | nil => simp [descartarLinha]
  | cons c cs ih =>
    have h10 : minuscula c = 10 ↔ c = 10 := by
      unfold minuscula
      simp only [Char.reduceToNat]
      repeat' split
      all_goals omega
    simp only [List.map_cons, descartarLinha, h10]
    split
    · simp
    · exact ih

theorem iteracao_minuscula (s : Estado) :
    iteracao (s.mapEntrada (List.map minuscula))
      = (iteracao s).mapEntrada (List.map minuscula) := by
  obtain ⟨atual, entrada, saida, caminho⟩ := s
  cases atual with
  | NULL => simp [iteracao, Estado.mapEntrada, Passo.mapEntrada]
  | sala nome esq dir =>
    by_cases hf : esq = .NULL ∧ dir = .NULL
    · simp [iteracao, Estado.mapEntrada, Passo.mapEntrada, hf]
    · simp only [iteracao, Estado.mapEntrada, hf, if_false, scanfChar_minuscula,
        Char.reduceToNat]
      rcases hsc : scanfChar entrada with ⟨o, r⟩
      cases o with
      | none =>
        have hr := scanfChar_none _ _ hsc
        subst hr
        simp [descartarLinha, Passo.mapEntrada, Estado.mapEntrada]
      | some c =>
        simp only [Option.map_some', minuscula_e, minuscula_d, minuscula_s]
        (repeat' split) <;> simp [Passo.mapEntrada, Estado.mapEntrada]

theorem laco_minuscula (n : Nat) (s : Estado) :
    laco n (s.mapEntrada (List.map minuscula))
      = ((laco n s).1, (laco n s).2.mapEntrada (List.map minuscula)) := by
  induction n generalizing s with
  | zero => simp [laco]
  | succ n ih =>
    simp only [laco, iteracao_minuscula]
    cases hi : iteracao s with
    | continua s2 => simp [Passo.mapEntrada, ih]
    | termina f s2 => simp [Passo.mapEntrada]

/-- C11: commands are case-insensitive.  At a room with a child, where the
command is read, the pass that reads `E`, `D` or `S` ends in the same outcome
and state as the pass that reads `e`, `d` or `s` in its place, with any input
after it; from any state a pass, and the loop, on the input with each `E`, `D`,
`S` replaced by `e`, `d`, `s` do what they do on the input itself, the unread
input apart, which is replaced likewise; and so does a whole session. -/
theorem maiusculas_equivalem (s : Estado) (resto : List Nat) (n : Nat) (raiz : Sala)
    (entrada : List Nat) :
    (s.atual ≠ .NULL → ehFolha s.atual = false →
        iteracao { s with entrada := 'E'.toNat :: resto }
          = iteracao { s with entrada := 'e'.toNat :: resto }
        ∧ iteracao { s with entrada := 'D'.toNat :: resto }
          = iteracao { s with entrada := 'd'.toNat :: resto }
        ∧ iteracao { s with entrada := 'S'.toNat :: resto }
          = iteracao { s with entrada := 's'.toNat :: resto }
        ∧ laco (n + 1) { s with entrada := 'E'.toNat :: resto }
          = laco (n + 1) { s with entrada := 'e'.toNat :: resto }
        ∧ laco (n + 1) { s with entrada := 'D'.toNat :: resto }
          = laco (n + 1) { s with entrada := 'd'.toNat :: resto }
        ∧ laco (n + 1) { s with entrada := 'S'.toNat :: resto }
          = laco (n + 1) { s with entrada := 's'.toNat :: resto })
      ∧ minuscula 'E'.toNat = 'e'.toNat ∧ minuscula 'D'.toNat = 'd'.toNat
      ∧ minuscula 'S'.toNat = 's'.toNat
      ∧ iteracao (s.mapEntrada (List.map minuscula))
        = (iteracao s).mapEntrada (List.map minuscula)
      ∧ laco n (s.mapEntrada (List.map minuscula))
        = ((laco n s).1, (laco n s).2.mapEntrada (List.map minuscula))
      ∧ explorarSalas raiz (entrada.map minuscula)
        = (explorarSalas raiz entrada).map
            (fun r => (r.1, r.2.mapEntrada (List.map minuscula))) := by
  refine ⟨?_, by decide, by decide, by decide, iteracao_minuscula s, laco_minuscula n s, ?_⟩
  · intro hn hf
    cases hat : s.atual with
    | NULL => exact absurd hat hn
    | sala nome esq dir =>
      rw [hat] at hf
      have hnf := naoFolha_filhos nome esq dir hf
      have hE : iteracao { s with entrada := 'E'.toNat :: resto }
          = iteracao { s with entrada := 'e'.toNat :: resto } := by
        simp [iteracao, scanfChar, isspace, hat, hnf]
      have hD : iteracao { s with entrada := 'D'.toNat :: resto }
          = iteracao { s with entrada := 'd'.toNat :: resto } := by
        simp [iteracao, scanfChar, isspace, hat, hnf]
      have hS : iteracao { s with entrada := 'S'.toNat :: resto }
          = iteracao { s with entrada := 's'.toNat :: resto } := by
        simp [iteracao, scanfChar, isspace, hat, hnf]
      rw [← hat]
      exact ⟨hE, hD, hS, by simp only [laco, hE], by simp only [laco, hD],
        by simp only [laco, hS]⟩
  · cases raiz with
    | NULL => simp [explorarSalas]
    | sala nm e d =>
      simp only [explorarSalas, List.length_map, Option.map_some']
      exact congrArg some (laco_minuscula _ (estadoInicial (.sala nm e d) entrada))

/-! ## Downward traversal -/

theorem passo_desce (s s2 : Estado) (hi : iteracao s = .continua s2) :
    (s2.atual = s.atual ∧ s2.caminho = s.caminho)
      ∨ ∃ l, s2.caminho = s.caminho ++ [l] ∧ s2.atual = descer s.atual [l]
          ∧ s2.atual ≠ .NULL := by
  unfold iteracao at hi
  split at hi
  · simp at hi
  · rename_i nome esq dir hat
    split at hi
    · simp at hi
    · (repeat' split at hi) <;> simp at hi <;> subst hi <;> simp [hat, descer]

theorem passo_prefixo (s s2 : Estado) (hi : iteracao s = .continua s2) :
    s.caminho <+: s2.caminho := by
  rcases passo_desce s s2 hi with h | ⟨l, h, _⟩
  · rw [h.2]
  · rw [h]
    exact List.prefix_append _ _

theorem trajeto_prefixo (n : Nat) (s b : Estado) (h : b ∈ trajeto n s) :
    s.caminho <+: b.caminho := by
  induction n generalizing s with
  | zero =>
    simp [trajeto] at h
    rw [h]
  | succ n ih =>
    unfold trajeto at h
    split at h
    · simp at h
      rw [h]
    · rename_i s2 hi
      simp at h
      rcases h with h | h
      · rw [h]
      · exact (passo_prefixo s s2 hi).trans (ih s2 h)

theorem trajeto_pairwise (n : Nat) (s : Estado) :
    List.Pairwise (fun a b : Estado => a.caminho <+: b.caminho) (trajeto n s) := by
  induction n generalizing s with
  | zero => simp [trajeto]
  | succ n ih =>
    unfold trajeto
    split
    · simp
    · rename_i s2 hi
      rw [List.pairwise_cons]
      exact ⟨fun b hb => (passo_prefixo s s2 hi).trans (trajeto_prefixo n s2 b hb), ih s2⟩

theorem descer_niveis (t : Sala) (p : List Lado) (h : descer t p ≠ .NULL) :
    p.length < niveis t := by
  induction t generalizing p with
  | NULL => simp [descer_NULL] at h
  | sala n e d ihe ihd =>
    cases p with
    | nil => simp [niveis]
    | cons l ps =>
      cases l with
      | esquerda =>
        have := ihe ps (by simpa [descer] using h)
        simp only [niveis, List.length_cons]
        omega
      | direita =>
        have := ihd ps (by simpa [descer] using h)
        simp only [niveis, List.length_cons]
        omega

theorem NULL_nao_sala (t : Sala) : Sala.NULL ∉ salas t := by
  induction t with
  | NULL => simp [salas]
  | sala n e d ihe ihd => simp [salas, ihe, ihd]

theorem Inv_altura (raiz : Sala) (s : Estado) (h : Inv raiz s) :
    s.caminho.length ≤ altura raiz
      ∧ (s.saida.filter Msg.ehCaminhando).length ≤ altura raiz := by
  obtain ⟨h1, h2, h3⟩ := h
  have hn : descer raiz s.caminho ≠ .NULL := by
    rw [← h1]
    intro h0
    rw [h0] at h2
    exact NULL_nao_sala raiz h2
  have := descer_niveis raiz s.caminho hn
  unfold altura
  omega

theorem Inv_termina (raiz : Sala) (s s2 : Estado) (f : Fim) (hi : iteracao s = .termina f s2)
    (h : Inv raiz s) : Inv raiz s2 := by
  obtain ⟨h1, h2, h3⟩ := h
  have hc := termina_cursor s s2 f hi
  refine ⟨by rw [hc.1, hc.2]; exact h1, by rw [hc.1]; exact h2, ?_⟩
  rw [hc.2, ← h3]
  unfold iteracao at hi
  (repeat' split at hi) <;> simp at hi <;> simp [← hi.2, List.filter_append, filter_prompt,
    Msg.ehCaminhando]

theorem Inv_laco (raiz : Sala) (n : Nat) (s : Estado) (h : Inv raiz s) :
    Inv raiz (laco n s).2 := by
  induction n generalizing s with
  | zero => simpa [laco] using h
  | succ n ih =>
    unfold laco
    split
    · rename_i f s2 hi
      exact Inv_termina raiz s s2 f hi h
    · rename_i s2 hi
      exact ih s2 (Inv_continua raiz s s2 hi h)

/-- C14: traversal is strictly downward.  Every pass leaves the cursor where it
is or moves it to a direct child, extending the path from the root by one
move; along a session the path only grows, so a room that was left is not
visited again; and the number of moves made, which is the number of moves
reported, never exceeds the height of the tree, which is 4 for the tree built
by `montarMansao`. -/
theorem descida (raiz : Sala) (entrada : List Nat) (n : Nat) (s : Estado)
    (hr : raiz ≠ .NULL) (h : s ∈ trajeto n (estadoInicial raiz entrada)) :
    (∀ s2, iteracao s = .continua s2 →
        (s2.atual = s.atual ∧ s2.caminho = s.caminho)
          ∨ ∃ l, s2.caminho = s.caminho ++ [l] ∧ s2.atual = descer s.atual [l]
              ∧ s2.atual ≠ .NULL)
      ∧ (∀ f s2, iteracao s = .termina f s2 → s2.atual = s.atual ∧ s2.caminho = s.caminho)
      ∧ s.atual = descer raiz s.caminho
      ∧ s.caminho.length ≤ altura raiz
      ∧ (s.saida.filter Msg.ehCaminhando).length = s.caminho.length
      ∧ List.Pairwise (fun a b : Estado => a.caminho <+: b.caminho)
          (trajeto n (estadoInicial raiz entrada))
      ∧ (∀ a b c, List.Sublist [a, b, c] (trajeto n (estadoInicial raiz entrada)) →
          a.caminho = c.caminho → b.caminho = a.caminho)
      ∧ (∀ f sf, explorarSalas raiz entrada = some (f, sf) →
          sf.caminho.length ≤ altura raiz
            ∧ (sf.saida.filter Msg.ehCaminhando).length ≤ altura raiz)
      ∧ montarMansao.map altura = some 4 := by
  have hinv := Inv_trajeto raiz n _ s (Inv_inicial raiz entrada hr) h
  refine ⟨passo_desce s, fun f s2 hi => termina_cursor s s2 f hi, hinv.1,
    (Inv_altura raiz s hinv).1, hinv.2.2, trajeto_pairwise n _, ?_, ?_, by decide⟩
  · intro a b c hsub hac
    have hp := (trajeto_pairwise n (estadoInicial raiz entrada)).sublist hsub
    simp only [List.pairwise_cons, List.mem_cons, List.mem_singleton, forall_eq_or_imp,
      forall_eq] at hp
    obtain ⟨⟨hab, _⟩, ⟨hbc, _⟩, _⟩ := hp
    rw [← hac] at hbc
    exact (List.IsPrefix.eq_of_length_le hbc hab.length_le)
  · intro f sf he
    cases raiz with
    | NULL => exact absurd rfl hr
    | sala nm e d =>
      simp only [explorarSalas, Option.some.injEq] at he
      have := Inv_laco (.sala nm e d) (entrada.length + 1)
        (estadoInicial (.sala nm e d) entrada) (Inv_inicial _ entrada hr)
      rw [he] at this
      exact Inv_altura _ sf this

/-! ## Input without the bytes that are no command -/

theorem laco_fuel (n m : Nat) (s : Estado) (hn : s.entrada.length < n)
    (hm : s.entrada.length < m) : laco n s = laco m s := by
  induction n generalizing s m with
  | zero => omega
  | succ n ih =>
    cases m with
    | zero => omega
    | succ m =>
      unfold laco
      cases hi : iteracao s with
      | termina f s2 => rfl
      | continua s2 =>
        have := iteracao_continua_length s s2 hi
        exact ih m s2 (by omega) (by omega)

theorem trajeto_fuel (n m : Nat) (s : Estado) (hn : s.entrada.length ≤ n)
    (hm : s.entrada.length ≤ m) : trajeto n s = trajeto m s := by
  induction n generalizing s m with
  | zero =>
    cases m with
    | zero => rfl
    | succ m =>
      unfold trajeto
      cases hi : iteracao s with
      | termina f s2 => rfl
      | continua s2 =>
        have := iteracao_continua_length s s2 hi
        omega
  | succ n ih =>
    cases m with
    | zero =>
      unfold trajeto
      cases hi : iteracao s with
      | termina f s2 => rfl
      | continua s2 =>
        have := iteracao_continua_length s s2 hi
        omega
    | succ m =>
      unfold trajeto
      cases hi : iteracao s with
      | termina f s2 => rfl
      | continua s2 =>
        have := iteracao_continua_length s s2 hi
        simp only
        rw [ih m s2 (by omega) (by omega)]

theorem prompt_sem_invalida (e d : Sala) :
    Msg.invalida ∉ prompt e d ∧ (prompt e d).filter Msg.permanece = []
      ∧ (prompt e d).count .opcoes = 1 := by
  unfold prompt
  split <;> split <;> decide

theorem ApagaInvalidas_append (a b X : List Msg) (hX : Msg.invalida ∉ X)
    (h : ApagaInvalidas a b) : ApagaInvalidas (a ++ X) (b ++ X) := by
  obtain ⟨h1, h2, h3, h4⟩ := h
  refine ⟨h1.append (List.Sublist.refl X), ?_, ?_, ?_⟩
  · rw [List.filter_append, List.filter_append, h2]
  · simp [h3, hX]
  · rw [List.count_append, List.count_append, List.count_append, h4,
      List.count_eq_zero_of_not_mem hX]
    omega

theorem ApagaInvalidas_invalida (a b : List Msg) (e d : Sala) (h : ApagaInvalidas a b) :
    ApagaInvalidas a (b ++ prompt e d ++ [.invalida]) := by
  obtain ⟨h1, h2, h3, h4⟩ := h
  obtain ⟨p1, p2, p3⟩ := prompt_sem_invalida e d
  refine ⟨?_, ?_, h3, ?_⟩
  · rw [List.append_assoc]
    exact h1.trans (List.sublist_append_left _ _)
  · rw [List.filter_append, List.filter_append, p2, h2]
    simp [Msg.permanece]
  · rw [List.count_append, List.count_append, List.count_append, List.count_append, h4, p3,
      List.count_eq_zero_of_not_mem p1]
    simp
    omega

theorem iteracao_parado (a : Sala) (h : a = .NULL ∨ ehFolha a = true) :
    ∃ f X, Msg.invalida ∉ X ∧ ∀ e o cam,
      iteracao ⟨a, e, o, cam⟩ = .termina f ⟨a, e, o ++ X, cam⟩ := by
  cases a with
  | NULL => exact ⟨.cursorNulo, [], by simp, fun e o cam => by simp [iteracao]⟩
  | sala nome esq dir =>
    rcases h with h | h
    · cases h
    · cases esq <;> cases dir <;> simp [ehFolha] at h
      exact ⟨.folha, [.fimCaminho nome], by simp, fun e o cam => by simp [iteracao]⟩

theorem iteracao_eof (nome : List Nat) (esq dir : Sala) (hnf : ¬(esq = .NULL ∧ dir = .NULL))
    (o : List Msg) (cam : List Lado) :
    iteracao ⟨.sala nome esq dir, [], o, cam⟩
      = .termina .travado ⟨.sala nome esq dir, [], o ++ prompt esq dir, cam⟩ := by
  simp [iteracao, hnf, scanfChar, descartarLinha]

theorem iteracao_espaco (nome : List Nat) (esq dir : Sala)
    (hnf : ¬(esq = .NULL ∧ dir = .NULL)) (c : Nat) (hc : isspace c = true)
    (r : List Nat) (o : List Msg) (cam : List Lado) :
    iteracao ⟨.sala nome esq dir, c :: r, o, cam⟩
      = iteracao ⟨.sala nome esq dir, r, o, cam⟩ := by
  simp [iteracao, hnf, scanfChar, hc]

theorem ehComando_naoEspaco (c : Nat) (h : ehComando c = true) : isspace c = false := by
  simp only [ehComando, Char.reduceToNat, Bool.or_eq_true, decide_eq_true_eq] at h
  rcases h with ((((h | h) | h) | h) | h) | h <;> subst h <;> decide

theorem iteracao_invalido (nome : List Nat) (esq dir : Sala)
    (hnf : ¬(esq = .NULL ∧ dir = .NULL)) (c : Nat) (hsp : isspace c = false)
    (hc : ehComando c = false) (r : List Nat) (o : List Msg) (cam : List Lado) :
    iteracao ⟨.sala nome esq dir, c :: r, o, cam⟩
      = .continua ⟨.sala nome esq dir, r, o ++ prompt esq dir ++ [.invalida], cam⟩ := by
  simp only [ehComando, Char.reduceToNat, Bool.or_eq_false_iff, decide_eq_false_iff_not] at hc
  obtain ⟨⟨⟨⟨⟨h1, h2⟩, h3⟩, h4⟩, h5⟩, h6⟩ := hc
  simp [iteracao, hnf, scanfChar, hsp, h1, h2, h3, h4, h5, h6]

theorem iteracao_comando (nome : List Nat) (esq dir : Sala)
    (hnf : ¬(esq = .NULL ∧ dir = .NULL)) (c : Nat) (hc : ehComando c = true)
    (cam : List Lado) :
    ∃ fim a2 cam2 X, Msg.invalida ∉ X ∧ ∀ r o,
      iteracao ⟨.sala nome esq dir, c :: r, o, cam⟩ = Passo.de fim ⟨a2, r, o ++ X, cam2⟩ := by
  have hsp := ehComando_naoEspaco c hc
  obtain ⟨p1, _, _⟩ := prompt_sem_invalida esq dir
  simp only [ehComando, Char.reduceToNat, Bool.or_eq_true, decide_eq_true_eq] at hc
  by_cases he : c = 101 ∨ c = 69
  · cases hesq : esq with
    | NULL =>
      refine ⟨none, .sala nome .NULL dir, cam, prompt .NULL dir ++ [.bloqueadoEsquerda],
        ?_, fun r o => ?_⟩
      · rw [← hesq]; simp [p1]
      · subst hesq
        have hdn : ¬dir = .NULL := fun h => hnf ⟨rfl, h⟩
        simp [iteracao, hdn, scanfChar, hsp, he, Passo.de]
    | sala n e d =>
      refine ⟨none, .sala n e d, cam ++ [.esquerda],
        prompt (.sala n e d) dir ++ [.caminhando n], ?_, fun r o => ?_⟩
      · rw [← hesq]; simp [p1]
      · simp [iteracao, scanfChar, hsp, he, Passo.de]
  · by_cases hd : c = 100 ∨ c = 68
    · cases hdir : dir with
      | NULL =>
        refine ⟨none, .sala nome esq .NULL, cam, prompt esq .NULL ++ [.bloqueadoDireita],
          ?_, fun r o => ?_⟩
        · rw [← hdir]; simp [p1]
        · subst hdir
          have hen : ¬esq = .NULL := fun h => hnf ⟨h, rfl⟩
          simp [iteracao, hen, scanfChar, hsp, he, hd, Passo.de]
      | sala n e d =>
        refine ⟨none, .sala n e d, cam ++ [.direita],
          prompt esq (.sala n e d) ++ [.caminhando n], ?_, fun r o => ?_⟩
        · rw [← hdir]; simp [p1]
        · simp [iteracao, scanfChar, hsp, he, hd, Passo.de]
    · have hs : c = 115 ∨ c = 83 := by
        rcases hc with ((((h | h) | h) | h) | h) | h
        · exact absurd (Or.inl h) he
        · exact absurd (Or.inr h) he
        · exact absurd (Or.inl h) hd
        · exact absurd (Or.inr h) hd
        · exact Or.inl h
        · exact Or.inr h
      refine ⟨some .saiu, .sala nome esq dir, cam, prompt esq dir ++ [.saindo],
        by simp [p1], fun r o => ?_⟩
      simp [iteracao, hnf, scanfChar, hsp, he, hd, hs, Passo.de]

theorem laco_succ_continua (n : Nat) (s s2 : Estado) (hi : iteracao s = .continua s2) :
    laco (n + 1) s = laco n s2 := by
  rw [laco, hi]

theorem laco_succ_termina (n : Nat) (s s2 : Estado) (f : Fim)
    (hi : iteracao s = .termina f s2) : laco (n + 1) s = (f, s2) := by
  rw [laco, hi]

theorem laco_congr (n : Nat) (s s2 : Estado) (hi : iteracao s = iteracao s2) :
    laco (n + 1) s = laco (n + 1) s2 := by
  rw [laco, laco, hi]

theorem trajeto_succ_continua (n : Nat) (s s2 : Estado) (hi : iteracao s = .continua s2) :
    trajeto (n + 1) s = s :: trajeto n s2 := by
  rw [trajeto, hi]

theorem trajeto_termina (n : Nat) (s s2 : Estado) (f : Fim)
    (hi : iteracao s = .termina f s2) : trajeto n s = [s] := by
  cases n with
  | zero => rfl
  | succ n => rw [trajeto, hi]

theorem trajeto_cabeca (n : Nat) (s : Estado) :
    ∃ T, (trajeto n s).map Estado.atual = s.atual :: T := by
  cases n with
  | zero => exact ⟨[], rfl⟩
  | succ n =>
    unfold trajeto
    split
    · exact ⟨[], rfl⟩
    · exact ⟨_, rfl⟩

theorem trajeto_congr (n : Nat) (s s2 : Estado) (hi : iteracao s = iteracao s2)
    (ha : s.atual = s2.atual) :
    (trajeto (n + 1) s).map Estado.atual = (trajeto (n + 1) s2).map Estado.atual := by
  rw [trajeto, trajeto, hi]
  split <;> simp [ha]

theorem semRepeticao_igual (a : Sala) (T : List Sala) :
    semRepeticao (a :: a :: T) = semRepeticao (a :: T) := by
  simp [semRepeticao]

theorem semRepeticao_congr (a b : Sala) (T1 T2 : List Sala)
    (h : semRepeticao (b :: T1) = semRepeticao (b :: T2)) :
    semRepeticao (a :: b :: T1) = semRepeticao (a :: b :: T2) := by
  simp only [semRepeticao, h]

theorem naoParado (a : Sala) (hp : ¬(a = .NULL ∨ ehFolha a = true)) :
    ∃ nome esq dir, a = .sala nome esq dir ∧ ¬(esq = .NULL ∧ dir = .NULL) := by
  cases a with
  | NULL => exact absurd (Or.inl rfl) hp
  | sala nome esq dir =>
    refine ⟨nome, esq, dir, rfl, ?_⟩
    rintro ⟨rfl, rfl⟩
    exact hp (Or.inr rfl)

theorem laco_filtrado (e : List Nat) (a : Sala) (cam : List Lado) (o1 o2 : List Msg)
    (h : ApagaInvalidas o1 o2) :
    ∃ f sf1 sf2,
      laco ((e.filter ehComando).length + 1) ⟨a, e.filter ehComando, o1, cam⟩ = (f, sf1)
        ∧ laco (e.length + 1) ⟨a, e, o2, cam⟩ = (f, sf2)
        ∧ sf1.atual = sf2.atual ∧ sf1.caminho = sf2.caminho
        ∧ sf1.entrada = sf2.entrada.filter ehComando
        ∧ ApagaInvalidas sf1.saida sf2.saida := by
  induction e generalizing a cam o1 o2 with
  | nil =>
    by_cases hp : a = .NULL ∨ ehFolha a = true
    · obtain ⟨f, X, hX, hi⟩ := iteracao_parado a hp
      exact ⟨f, ⟨a, [], o1 ++ X, cam⟩, ⟨a, [], o2 ++ X, cam⟩,
        laco_succ_termina _ _ _ _ (hi _ _ _), laco_succ_termina _ _ _ _ (hi _ _ _),
        rfl, rfl, rfl, ApagaInvalidas_append _ _ X hX h⟩
    · obtain ⟨nome, esq, dir, rfl, hnf⟩ := naoParado a hp
      exact ⟨.travado, _, _,
        laco_succ_termina _ _ _ _ (iteracao_eof nome esq dir hnf o1 cam),
        laco_succ_termina _ _ _ _ (iteracao_eof nome esq dir hnf o2 cam),
        rfl, rfl, rfl,
        ApagaInvalidas_append _ _ _ (prompt_sem_invalida esq dir).1 h⟩
  | cons c rest ih =>
    by_cases hp : a = .NULL ∨ ehFolha a = true
    · obtain ⟨f, X, hX, hi⟩ := iteracao_parado a hp
      exact ⟨f, ⟨a, _, o1 ++ X, cam⟩, ⟨a, _, o2 ++ X, cam⟩,
        laco_succ_termina _ _ _ _ (hi _ _ _), laco_succ_termina _ _ _ _ (hi _ _ _),
        rfl, rfl, rfl, ApagaInvalidas_append _ _ X hX h⟩
    · obtain ⟨nome, esq, dir, rfl, hnf⟩ := naoParado a hp
      by_cases hc : ehComando c = true
      · obtain ⟨fim, a2, cam2, X, hX, hi⟩ := iteracao_comando nome esq dir hnf c hc cam
        rw [List.filter_cons_of_pos hc]
        cases fim with
        | some f =>
          exact ⟨f, ⟨a2, _, o1 ++ X, cam2⟩, ⟨a2, _, o2 ++ X, cam2⟩,
            laco_succ_termina _ _ _ _ (hi _ _), laco_succ_termina _ _ _ _ (hi _ _),
            rfl, rfl, rfl, ApagaInvalidas_append _ _ X hX h⟩
        | none =>
          obtain ⟨f, sf1, sf2, h1, h2, h3⟩ :=
            ih a2 cam2 (o1 ++ X) (o2 ++ X) (ApagaInvalidas_append _ _ X hX h)
          refine ⟨f, sf1, sf2, ?_, ?_, h3⟩
          · rw [List.length_cons, laco_succ_continua _ _ _ (hi _ _)]
            exact h1
          · rw [List.length_cons, laco_succ_continua _ _ _ (hi _ _)]
            exact h2
      · rw [List.filter_cons_of_neg hc]
        have hc2 : ehComando c = false := by simpa using hc
        by_cases hsp : isspace c = true
        · obtain ⟨f, sf1, sf2, h1, h2, h3⟩ := ih (.sala nome esq dir) cam o1 o2 h
          refine ⟨f, sf1, sf2, h1, ?_, h3⟩
          rw [List.length_cons, laco_congr _ _ _ (iteracao_espaco nome esq dir hnf c hsp rest o2 cam),
            laco_fuel (rest.length + 1 + 1) (rest.length + 1)
              ⟨.sala nome esq dir, rest, o2, cam⟩
              (Nat.lt_succ_of_lt (Nat.lt_succ_self _)) (Nat.lt_succ_self _)]
          exact h2
        · have hsp2 : isspace c = false := by simpa using hsp
          obtain ⟨f, sf1, sf2, h1, h2, h3⟩ := ih (.sala nome esq dir) cam o1
            (o2 ++ prompt esq dir ++ [.invalida]) (ApagaInvalidas_invalida _ _ esq dir h)
          refine ⟨f, sf1, sf2, h1, ?_, h3⟩
          rw [List.length_cons, laco_succ_continua _ _ _
            (iteracao_invalido nome esq dir hnf c hsp2 hc2 rest o2 cam)]
          exact h2

theorem trajeto_filtrado (e : List Nat) (a : Sala) (cam : List Lado) (o1 o2 : List Msg) :
    semRepeticao ((trajeto (e.filter ehComando).length
        ⟨a, e.filter ehComando, o1, cam⟩).map Estado.atual)
      = semRepeticao ((trajeto e.length ⟨a, e, o2, cam⟩).map Estado.atual) := by
  induction e generalizing a cam o1 o2 with
  | nil => rfl
  | cons c rest ih =>
    by_cases hp : a = .NULL ∨ ehFolha a = true
    · obtain ⟨f, X, hX, hi⟩ := iteracao_parado a hp
      rw [trajeto_termina _ _ _ _ (hi _ _ _), trajeto_termina _ _ _ _ (hi _ _ _)]
      rfl
    · obtain ⟨nome, esq, dir, rfl, hnf⟩ := naoParado a hp
      by_cases hc : ehComando c = true
      · obtain ⟨fim, a2, cam2, X, hX, hi⟩ := iteracao_comando nome esq dir hnf c hc cam
        rw [List.filter_cons_of_pos hc]
        cases fim with
        | some f =>
          rw [trajeto_termina _ _ _ _ (hi _ _), trajeto_termina _ _ _ _ (hi _ _)]
          rfl
        | none =>
          rw [List.length_cons, List.length_cons, trajeto_succ_continua _ _ _ (hi _ _),
            trajeto_succ_continua _ _ _ (hi _ _)]
          have hih := ih a2 cam2 (o1 ++ X) (o2 ++ X)
          obtain ⟨T1, ht1⟩ := trajeto_cabeca (rest.filter ehComando).length
            ⟨a2, rest.filter ehComando, o1 ++ X, cam2⟩
          obtain ⟨T2, ht2⟩ := trajeto_cabeca rest.length ⟨a2, rest, o2 ++ X, cam2⟩
          rw [ht1, ht2] at hih
          simp only [List.map_cons, ht1, ht2]
          exact semRepeticao_congr _ _ _ _ hih
      · rw [List.filter_cons_of_neg hc]
        have hc2 : ehComando c = false := by simpa using hc
        by_cases hsp : isspace c = true
        · have hR : (trajeto (rest.length + 1)
                ⟨.sala nome esq dir, c :: rest, o2, cam⟩).map Estado.atual
              = (trajeto rest.length ⟨.sala nome esq dir, rest, o2, cam⟩).map Estado.atual := by
            rw [trajeto_congr _ _ _ (iteracao_espaco nome esq dir hnf c hsp rest o2 cam) rfl,
              trajeto_fuel (rest.length + 1) rest.length _ (Nat.le_succ _) (Nat.le_refl _)]
          rw [List.length_cons, hR]
          exact ih _ _ _ _
        · have hsp2 : isspace c = false := by simpa using hsp
          rw [List.length_cons, trajeto_succ_continua _ _ _
            (iteracao_invalido nome esq dir hnf c hsp2 hc2 rest o2 cam)]
          have hih := ih (.sala nome esq dir) cam o1 (o2 ++ prompt esq dir ++ [.invalida])
          obtain ⟨T2, ht2⟩ := trajeto_cabeca rest.length
            ⟨.sala nome esq dir, rest, o2 ++ prompt esq dir ++ [.invalida], cam⟩
          rw [hih]
          simp only [List.map_cons, ht2]
          exact (semRepeticao_igual _ _).symm

/-- C16: deleting from the input every byte that is not one of `e E d D s S`
changes neither the sequence of rooms visited, nor the way the session ends,
nor the final room and moves; the input left unread is the old one with the
same bytes deleted; and the output loses prompt calls and invalid-choice
messages only, every invalid-choice message and one prompt for each. -/
theorem filtrar_invalidos (raiz : Sala) (entrada : List Nat) :
    semRepeticao (visitadas raiz (entrada.filter ehComando))
        = semRepeticao (visitadas raiz entrada)
      ∧ (explorarSalas raiz (entrada.filter ehComando)).map
          (fun r => (r.1, r.2.atual, r.2.caminho, r.2.entrada))
        = (explorarSalas raiz entrada).map
          (fun r => (r.1, r.2.atual, r.2.caminho, r.2.entrada.filter ehComando))
      ∧ (∀ r1 r2, explorarSalas raiz (entrada.filter ehComando) = some r1 →
          explorarSalas raiz entrada = some r2 → ApagaInvalidas r1.2.saida r2.2.saida) := by
  refine ⟨trajeto_filtrado entrada raiz [] _ _, ?_⟩
  cases raiz with
  | NULL => simp [explorarSalas]
  | sala nm e d =>
    obtain ⟨f, sf1, sf2, h1, h2, h3, h4, h5, h6⟩ := laco_filtrado entrada (.sala nm e d) []
      [.inicio, .voceEsta nm] [.inicio, .voceEsta nm]
      ⟨List.Sublist.refl _, rfl, by simp, by simp⟩
    have e1 : explorarSalas (.sala nm e d) (entrada.filter ehComando) = some (f, sf1) := by
      simp only [explorarSalas, estadoInicial, nomeDe]
      exact congrArg some h1
    have e2 : explorarSalas (.sala nm e d) entrada = some (f, sf2) := by
      simp only [explorarSalas, estadoInicial, nomeDe]
      exact congrArg some h2
    refine ⟨by simp [e1, e2, h3, h4, h5], ?_⟩
    intro r1 r2 hr1 hr2
    rw [e1] at hr1
    rw [e2] at hr2
    cases hr1
    cases hr2
    exact h6

/-! ## Invalid choices -/

theorem scanfChar_espacos (ws : List Nat) (c : Nat) (resto : List Nat)
    (hws : ∀ w ∈ ws, isspace w = true) (hsp : isspace c = false) :
    scanfChar (ws ++ c :: resto) = (some c, resto) := by
  induction ws with
  | nil => simp [scanfChar, hsp]
  | cons w ws ih =>
    have hw : isspace w = true := hws w (by simp)
    simp only [List.cons_append, scanfChar, hw, if_true]
    exact ih (fun x hx => hws x (by simp [hx]))

/-- C12, as the spec states it, fails: at a room with a child, with a newline
(or a space) as the next input byte, which is none of `e E d D s S`, the pass
prints no invalid-choice message and does not prompt again; the byte is skipped
and the pass obeys the command after it.  So it is not true that every byte
other than the six commands is answered with the invalid-choice message. -/
theorem opcao_invalida_espaco_falha :
    ehFolha (.sala [65] .NULL (.sala [66] .NULL .NULL)) = false
      ∧ ehComando 10 = false ∧ ehComando 32 = false
      ∧ iteracao (Estado.mk (.sala [65] .NULL (.sala [66] .NULL .NULL)) [10, 115] [] [])
        = .termina .saiu (Estado.mk (.sala [65] .NULL (.sala [66] .NULL .NULL)) []
            [.opcoes, .optDireita, .optSair, .suaEscolha, .saindo] [])
      ∧ iteracao (Estado.mk (.sala [65] .NULL (.sala [66] .NULL .NULL)) [32, 100] [] [])
        = .continua (Estado.mk (.sala [66] .NULL .NULL) []
            [.opcoes, .optDireita, .optSair, .suaEscolha, .caminhando [66]] [.direita])
      ∧ ¬(∀ (s : Estado) (nome : List Nat) (esq dir : Sala) (c : Nat) (resto : List Nat),
          s.atual = .sala nome esq dir → ehFolha s.atual = false → ehComando c = false →
          iteracao { s with entrada := c :: resto }
            = .continua { s with entrada := resto,
                                 saida := s.saida ++ prompt esq dir ++ [.invalida] }) := by
  refine ⟨by decide, by decide, by decide, by decide, by decide, ?_⟩
  intro h
  have := h (Estado.mk (.sala [65] .NULL (.sala [66] .NULL .NULL)) [] [] []) [65] .NULL
    (.sala [66] .NULL .NULL) 10 [115] rfl (by decide) (by decide)
  revert this
  decide

/-- C12, amended: at a room that is not a leaf, an input byte that is neither
one of `e E d D s S` nor white space, coming next in the input or after white
space only, leaves the cursor and the recorded moves unchanged, prints the
invalid-choice message after the prompt, does not end the session, and the
next pass prints the prompt of the same room again; a white-space byte is
skipped by the read and the pass goes as if it were not there. -/
theorem opcao_invalida (s : Estado) (nome : List Nat) (esq dir : Sala) (c : Nat)
    (ws resto : List Nat) (n : Nat)
    (hat : s.atual = .sala nome esq dir) (hnf : ehFolha s.atual = false)
    (hc : ehComando c = false) (hsp : isspace c = false)
    (hws : ∀ w ∈ ws, isspace w = true) :
    iteracao { s with entrada := ws ++ c :: resto }
        = .continua
          { s with entrada := resto, saida := s.saida ++ prompt esq dir ++ [.invalida] }
      ∧ laco (n + 1) { s with entrada := ws ++ c :: resto }
        = laco n
          { s with entrada := resto, saida := s.saida ++ prompt esq dir ++ [.invalida] }
      ∧ (∃ extra, (iteracao
            { s with entrada := resto, saida := s.saida ++ prompt esq dir ++ [.invalida] }
          ).estado.saida = (s.saida ++ prompt esq dir ++ [.invalida]) ++ prompt esq dir ++ extra)
      ∧ scanfChar (ws ++ c :: resto) = (some c, resto)
      ∧ (∀ w r, isspace w = true →
          iteracao { s with entrada := w :: r } = iteracao { s with entrada := r }) := by
  rw [hat] at hnf
  have hnf2 := naoFolha_filhos nome esq dir hnf
  have hs := scanfChar_espacos ws c resto hws hsp
  have hc0 := hc
  simp only [ehComando, Bool.or_eq_false_iff, decide_eq_false_iff_not] at hc
  obtain ⟨⟨⟨⟨⟨h1, h2⟩, h3⟩, h4⟩, h5⟩, h6⟩ := hc
  replace h1 : ¬c = 101 := h1
  replace h2 : ¬c = 69 := h2
  replace h3 : ¬c = 100 := h3
  replace h4 : ¬c = 68 := h4
  replace h5 : ¬c = 115 := h5
  replace h6 : ¬c = 83 := h6
  have hi : iteracao { s with entrada := ws ++ c :: resto } = .continua
      { s with entrada := resto, saida := s.saida ++ prompt esq dir ++ [.invalida] } := by
    simp [iteracao, hat, hnf2, hs, h1, h2, h3, h4, h5, h6]
  refine ⟨hi, by simp [laco, hi], ?_, hs, ?_⟩
  · obtain ⟨extra, he, _⟩ := prompt_prefixo
      { s with entrada := resto, saida := s.saida ++ prompt esq dir ++ [.invalida] }
      nome esq dir hat hnf2
    exact ⟨extra, he⟩
  · intro w r hw
    simp [iteracao, hat, hnf2, scanfChar, hw]

/-! ## Instances -/

/-- Instance of `cursor_na_arvore`: a root with one left child, input `e`. -/
theorem cursor_na_arvore_witness :
    Sala.sala [65] (.sala [66] .NULL .NULL) .NULL ≠ .NULL
      ∧ ({ atual := .sala [66] .NULL .NULL, entrada := [10],
           saida := [.inicio, .voceEsta [65], .opcoes, .optEsquerda, .optSair, .suaEscolha,
                     .caminhando [66]],
           caminho := [.esquerda] } : Estado)
          ∈ trajeto 2 (estadoInicial (.sala [65] (.sala [66] .NULL .NULL) .NULL) [101, 10])
      ∧ Sala.sala [66] .NULL .NULL
          = descer (.sala [65] (.sala [66] .NULL .NULL) .NULL) [.esquerda]
      ∧ Sala.sala [66] .NULL .NULL ∈ salas (.sala [65] (.sala [66] .NULL .NULL) .NULL) :=
  have h := cursor_na_arvore (.sala [65] (.sala [66] .NULL .NULL) .NULL) [101, 10] 2
    { atual := .sala [66] .NULL .NULL, entrada := [10],
      saida := [.inicio, .voceEsta [65], .opcoes, .optEsquerda, .optSair, .suaEscolha,
                .caminhando [66]],
      caminho := [.esquerda] } (by decide) (by decide)
  ⟨by decide, by decide, h.1, h.2.1⟩

/-- Instance of `folha_termina`: a leaf reached with input still pending. -/
theorem folha_termina_witness :
    ehFolha (Estado.mk (.sala [66] .NULL .NULL) [101, 10] [.caminhando [66]] [.esquerda]).atual
        = true
      ∧ laco 1 (Estado.mk (.sala [66] .NULL .NULL) [101, 10] [.caminhando [66]] [.esquerda])
        = (.folha, Estado.mk (.sala [66] .NULL .NULL) [101, 10]
            [.caminhando [66], .fimCaminho [66]] [.esquerda]) :=
  ⟨by decide,
    (folha_termina (Estado.mk (.sala [66] .NULL .NULL) [101, 10] [.caminhando [66]]
      [.esquerda]) 0 (by decide)).2.1⟩

/-- Instance of `caminho_bloqueado`: `E` at a room with only a right child. -/
theorem caminho_bloqueado_witness :
    scanfChar (Estado.mk (.sala [65] .NULL (.sala [66] .NULL .NULL)) [10, 69, 10] [] []).entrada
        = (some 69, [10])
      ∧ iteracao (Estado.mk (.sala [65] .NULL (.sala [66] .NULL .NULL)) [10, 69, 10] [] [])
        = .continua (Estado.mk (.sala [65] .NULL (.sala [66] .NULL .NULL)) [10]
            [.opcoes, .optDireita, .optSair, .suaEscolha, .bloqueadoEsquerda] []) :=
  ⟨by decide,
    ((caminho_bloqueado (Estado.mk (.sala [65] .NULL (.sala [66] .NULL .NULL)) [10, 69, 10] [] [])
      [65] 69 [10] (by decide)).1 (.sala [66] .NULL .NULL) rfl (by decide) (by decide)).1⟩

/-- Instance of `sair_termina`: `s` followed by more input. -/
theorem sair_termina_witness :
    ehFolha (Estado.mk (.sala [65] .NULL (.sala [66] .NULL .NULL)) [115, 100, 10] [] []).atual
        = false
      ∧ scanfChar (Estado.mk (.sala [65] .NULL (.sala [66] .NULL .NULL)) [115, 100, 10] [] []
          ).entrada = (some 115, [100, 10])
      ∧ laco 1 (Estado.mk (.sala [65] .NULL (.sala [66] .NULL .NULL)) [115, 100, 10] [] [])
        = (.saiu, Estado.mk (.sala [65] .NULL (.sala [66] .NULL .NULL)) [100, 10]
            [.opcoes, .optDireita, .optSair, .suaEscolha, .saindo] []) :=
  ⟨by decide, by decide,
    (sair_termina (Estado.mk (.sala [65] .NULL (.sala [66] .NULL .NULL)) [115, 100, 10] [] [])
      [65] .NULL (.sala [66] .NULL .NULL) 115 [100, 10] 0 rfl (by decide) (by decide)
      (by decide)).2.1⟩

/-- Instance of `mover_para_filho`: `d` at a room with a right child. -/
theorem mover_para_filho_witness :
    scanfChar (Estado.mk (.sala [65] .NULL (.sala [66] .NULL .NULL)) [100, 10] [] []).entrada
        = (some 100, [10])
      ∧ iteracao (Estado.mk (.sala [65] .NULL (.sala [66] .NULL .NULL)) [100, 10] [] [])
        = .continua (Estado.mk (.sala [66] .NULL .NULL) [10]
            [.opcoes, .optDireita, .optSair, .suaEscolha, .caminhando [66]] [.direita]) :=
  ⟨by decide,
    (mover_para_filho (Estado.mk (.sala [65] .NULL (.sala [66] .NULL .NULL)) [100, 10] [] [])
      [65] 100 [10] (by decide)).2 [66] .NULL .NULL .NULL rfl (by decide)⟩

/-- Instance of `opcoes_do_prompt`: a room with only a right child. -/
theorem opcoes_do_prompt_witness :
    ehFolha (Estado.mk (.sala [65] .NULL (.sala [66] .NULL .NULL)) [] [] []).atual = false
      ∧ (Msg.optEsquerda ∈ prompt .NULL (.sala [66] .NULL .NULL) ↔ Sala.NULL ≠ .NULL)
      ∧ (Msg.optDireita ∈ prompt .NULL (.sala [66] .NULL .NULL)
          ↔ Sala.sala [66] .NULL .NULL ≠ .NULL)
      ∧ Msg.optSair ∈ prompt .NULL (.sala [66] .NULL .NULL) :=
  have h := opcoes_do_prompt (Estado.mk (.sala [65] .NULL (.sala [66] .NULL .NULL)) [] [] [])
    [65] .NULL (.sala [66] .NULL .NULL) rfl (by decide)
  ⟨by decide, h.2.1, h.2.2.1, h.2.2.2.1⟩

/-- Instance of `descida`: a root with one left child, input `e`. -/
theorem descida_witness :
    Sala.sala [65] (.sala [66] .NULL .NULL) .NULL ≠ .NULL
      ∧ ({ atual := .sala [66] .NULL .NULL, entrada := [10],
           saida := [.inicio, .voceEsta [65], .opcoes, .optEsquerda, .optSair, .suaEscolha,
                     .caminhando [66]],
           caminho := [.esquerda] } : Estado)
          ∈ trajeto 2 (estadoInicial (.sala [65] (.sala [66] .NULL .NULL) .NULL) [101, 10])
      ∧ [Lado.esquerda].length ≤ altura (.sala [65] (.sala [66] .NULL .NULL) .NULL)
      ∧ montarMansao.map altura = some 4 :=
  have h := descida (.sala [65] (.sala [66] .NULL .NULL) .NULL) [101, 10] 2
    { atual := .sala [66] .NULL .NULL, entrada := [10],
      saida := [.inicio, .voceEsta [65], .opcoes, .optEsquerda, .optSair, .suaEscolha,
                .caminhando [66]],
      caminho := [.esquerda] } (by decide) (by decide)
  ⟨by decide, by decide, h.2.2.2.1, h.2.2.2.2.2.2.2.2⟩

/-- Instance of `maiusculas_equivalem`: `E` and `e` at a room with only a left
child. -/
theorem maiusculas_equivalem_witness :
    (Estado.mk (.sala [65] (.sala [66] .NULL .NULL) .NULL) [] [] []).atual ≠ .NULL
      ∧ ehFolha (Estado.mk (.sala [65] (.sala [66] .NULL .NULL) .NULL) [] [] []).atual = false
      ∧ iteracao (Estado.mk (.sala [65] (.sala [66] .NULL .NULL) .NULL) [69, 10] [] [])
        = iteracao (Estado.mk (.sala [65] (.sala [66] .NULL .NULL) .NULL) [101, 10] [] []) :=
  ⟨by decide, by decide,
    ((maiusculas_equivalem (Estado.mk (.sala [65] (.sala [66] .NULL .NULL) .NULL) [] [] [])
      [10] 0 .NULL []).1 (by decide) (by decide)).1⟩

/-- Instance of `opcao_invalida`: `x` after a newline at a room with only a
right child. -/
theorem opcao_invalida_witness :
    ehFolha (Estado.mk (.sala [65] .NULL (.sala [66] .NULL .NULL)) [] [] []).atual = false
      ∧ ehComando 120 = false ∧ isspace 120 = false
      ∧ (∀ w ∈ [10], isspace w = true)
      ∧ iteracao (Estado.mk (.sala [65] .NULL (.sala [66] .NULL .NULL)) [10, 120, 10] [] [])
        = .continua (Estado.mk (.sala [65] .NULL (.sala [66] .NULL .NULL)) [10]
            [.opcoes, .optDireita, .optSair, .suaEscolha, .invalida] []) :=
  ⟨by decide, by decide, by decide, by decide,
    (opcao_invalida (Estado.mk (.sala [65] .NULL (.sala [66] .NULL .NULL)) [] [] [])
      [65] .NULL (.sala [66] .NULL .NULL) 120 [10] [10] 0 rfl (by decide) (by decide)
      (by decide) (by decide)).1⟩

end DetectiveQuest
